import Mathlib

/-
Verification of the update-detection and reload-orchestration subsystem of
DIM, embedded from src/app/register-service-worker.ts. Pure functions are
translated directly; the reactive pipelines (rxjs) are modelled as functions
from finite event lists to finite emission lists, and the browser side
effects (logging, exception reporting, reloads, message posts) are modelled
as explicit effect values collected in lists.
-/

/-- Split a character list on the dot character, modelling the JavaScript
call version.split(".") at the top of isNewVersion. JavaScript split on an
empty string yields a list holding one empty string, which this definition
mirrors. -/
def splitSegs : List Char → List (List Char)
  | [] => [[]]
  | c :: cs =>
    if c = '.' then [] :: splitSegs cs
    else
      match splitSegs cs with
      | [] => [[c]]
      | seg :: rest => (c :: seg) :: rest

/-- Longest run of decimal digits at the front of a character list, used by
the model of the JavaScript parseInt builtin. -/
def leadingDigits : List Char → List Char
  | [] => []
  | c :: cs => if c.isDigit then c :: leadingDigits cs else []

/-- Numeric value of a list of decimal digit characters. -/
def digitsToNat (ds : List Char) : Nat :=
  ds.foldl (fun n c => n * 10 + (c.toNat - 48)) 0

/-- Whitespace characters skipped by the JavaScript parseInt builtin. -/
def isWsChar (c : Char) : Bool :=
  c = ' ' || c = '\t' || c = '\n' || c = '\r'

/-- Drop leading whitespace, as the JavaScript parseInt builtin does. -/
def skipWs : List Char → List Char
  | [] => []
  | c :: cs => if isWsChar c then skipWs cs else c :: cs

/-- Value of the leading digit run, or none when there is no leading digit. -/
def digitsVal (s : List Char) : Option Nat :=
  if (leadingDigits s).isEmpty then none else some (digitsToNat (leadingDigits s))

/-- Model of the JavaScript builtin parseInt(s, 10): skip whitespace, read an
optional sign, then the longest digit run; the NaN result is modelled as
none. The digit run is read as an exact unbounded integer; the builtin
itself returns an IEEE-754 double, whose rounding jsParseIntDouble below
models faithfully. The source calls parseInt on each dot-separated
segment. -/
def jsParseInt (s : List Char) : Option Int :=
  match skipWs s with
  | [] => none
  | c :: rest =>
    if c = '-' then (digitsVal rest).map (fun n => -(n : Int))
    else if c = '+' then (digitsVal rest).map (fun n => (n : Int))
    else (digitsVal (c :: rest)).map (fun n => (n : Int))

/-- Strict greater-than on parsed segments. A NaN (none) on either side
compares false, exactly as the JavaScript comparison versionSegment >
currentVersionSegment does when a side is NaN. -/
def segGt : Option Int → Option Int → Bool
  | some x, some y => decide (y < x)
  | _, _ => false

/-- Strict less-than on parsed segments, with NaN comparing false. -/
def segLt : Option Int → Option Int → Bool
  | some x, some y => decide (x < y)
  | _, _ => false

/-- Outcome of the comparison loop in isNewVersion: which of the two flags
newerAvailable or olderAvailable was set when the loop broke, or neither. -/
inductive VersionCmp where
  | newer
  | older
  | same
deriving DecidableEq

/-- The comparison loop of isNewVersion: walk the two segment lists in step;
at the first position where one parsed segment is strictly greater the loop
breaks with the corresponding flag; positions that are neither greater nor
lesser (equal, or involving NaN) are skipped; exhausting either list leaves
both flags unset. -/
def scanSegments : List (List Char) → List (List Char) → VersionCmp
  | a :: as, b :: bs =>
    if segGt (jsParseInt a) (jsParseInt b) then VersionCmp.newer
    else if segLt (jsParseInt a) (jsParseInt b) then VersionCmp.older
    else scanSegments as bs
  | _, _ => VersionCmp.same

/-- Embedding of isNewVersion from register-service-worker.ts: split both
strings on dots and run the comparison loop; the function returns the
newerAvailable flag. The advisory warn and info logs in the source depend
only on the VersionCmp outcome and do not affect the result. This variant
reads segments as exact integers; isNewVersionDouble below is the variant
with faithful IEEE-754 double semantics for the parseInt calls. -/
def isNewVersion (version currentVersion : String) : Bool :=
  scanSegments (splitSegs version.data) (splitSegs currentVersion.data) = VersionCmp.newer

/-- A dot-separated segment made of at least one digit and nothing else. -/
def numericSeg (s : List Char) : Bool :=
  !s.isEmpty && s.all Char.isDigit

/-- Dotted-numeric version string: every dot-separated segment is a nonempty
run of digits. -/
def dottedNumeric (s : String) : Bool :=
  (splitSegs s.data).all numericSeg

/-- Numeric values of the dot-separated segments of a version string. -/
def segVals (s : String) : List Nat :=
  (splitSegs s.data).map digitsToNat

/-- The comparison loop restricted to numeric segment values; used to state
the specification of isNewVersion on dotted-numeric strings. -/
def scanNat : List Nat → List Nat → VersionCmp
  | a :: as, b :: bs =>
    if b < a then VersionCmp.newer
    else if a < b then VersionCmp.older
    else scanNat as bs
  | _, _ => VersionCmp.same

/-- A JavaScript number as produced by parseInt: NaN, an infinity, or a
finite value. Every finite parseInt result is an integer-valued double, so
the finite payload is the exact integer that the double denotes. -/
inductive JsNumber where
  | nan
  | inf
  | negInf
  | finite (v : Int)
deriving DecidableEq

/-- Number of halvings needed to bring a natural number below the 53-bit
mantissa range, computed with explicit fuel so that the recursion is
structural; fuel n always suffices. -/
def excessBitsAux : Nat → Nat → Nat
  | 0, _ => 0
  | fuel + 1, n => if n < 2 ^ 53 then 0 else excessBitsAux fuel (n / 2) + 1

/-- Number of bits of n above the 53 bits of an IEEE-754 double mantissa. -/
def excessBits (n : Nat) : Nat :=
  excessBitsAux n n

/-- Round a natural number to the nearest integer representable in a 53-bit
mantissa (round to nearest, ties to even), as conversion to an IEEE-754
double does below the overflow threshold. Values below 2 to the 53rd are
returned exactly. -/
def roundMantissa (n : Nat) : Nat :=
  if n < 2 ^ 53 then n
  else
    let e := excessBits n
    let q := n / 2 ^ e
    let r := n % 2 ^ e
    let half := 2 ^ (e - 1)
    if half < r || (r = half && q % 2 = 1) then (q + 1) * 2 ^ e else q * 2 ^ e

/-- Convert an exact natural number to the JavaScript double it denotes:
values at or above the rounding boundary of the largest finite double
overflow to positive infinity, everything else rounds to the nearest
representable integer value. -/
def natToDouble (n : Nat) : JsNumber :=
  if 2 ^ 1024 - 2 ^ 970 ≤ n then JsNumber.inf
  else JsNumber.finite ((roundMantissa n : Int))

/-- Negation of a JavaScript number, applied for a leading minus sign. -/
def JsNumber.neg : JsNumber → JsNumber
  | JsNumber.nan => JsNumber.nan
  | JsNumber.inf => JsNumber.negInf
  | JsNumber.negInf => JsNumber.inf
  | JsNumber.finite v => JsNumber.finite (-v)

/-- Model of the JavaScript builtin parseInt(s, 10) with faithful IEEE-754
double semantics: skip whitespace, read an optional sign and the longest
digit run, then round the exact integer value to the nearest double,
overflowing to an infinity; no digits gives NaN. -/
def jsParseIntDouble (s : List Char) : JsNumber :=
  match skipWs s with
  | [] => JsNumber.nan
  | c :: rest =>
    if c = '-' then
      match digitsVal rest with
      | none => JsNumber.nan
      | some n => (natToDouble n).neg
    else if c = '+' then
      match digitsVal rest with
      | none => JsNumber.nan
      | some n => natToDouble n
    else
      match digitsVal (c :: rest) with
      | none => JsNumber.nan
      | some n => natToDouble n

/-- The JavaScript strict less-than on numbers: false whenever either side
is NaN, with the usual ordering on infinities and finite values. -/
def jsLt : JsNumber → JsNumber → Bool
  | JsNumber.nan, _ => false
  | _, JsNumber.nan => false
  | _, JsNumber.negInf => false
  | JsNumber.negInf, _ => true
  | JsNumber.inf, _ => false
  | JsNumber.finite _, JsNumber.inf => true
  | JsNumber.finite a, JsNumber.finite b => decide (a < b)

/-- The comparison loop of isNewVersion under double semantics: the source
comparison versionSegment > currentVersionSegment is jsLt with the operands
swapped, and a NaN on either side makes both comparisons false so the
position is skipped. -/
def scanSegmentsDouble : List (List Char) → List (List Char) → VersionCmp
  | a :: as, b :: bs =>
    if jsLt (jsParseIntDouble b) (jsParseIntDouble a) then VersionCmp.newer
    else if jsLt (jsParseIntDouble a) (jsParseIntDouble b) then VersionCmp.older
    else scanSegmentsDouble as bs
  | _, _ => VersionCmp.same

/-- Embedding of isNewVersion with faithful IEEE-754 double semantics for
the parseInt calls: the reference model for claims sensitive to parseInt
precision. -/
def isNewVersionDouble (version currentVersion : String) : Bool :=
  scanSegmentsDouble (splitSegs version.data) (splitSegs currentVersion.data) = VersionCmp.newer

/-- Dotted-numeric version string all of whose segment values lie below the
53-bit mantissa bound, so every segment parses to an exact double. -/
def safeSegs (s : String) : Bool :=
  (splitSegs s.data).all (fun seg => digitsToNat seg < 2 ^ 53)

/-- Model of the rxjs distinctUntilChanged operator, carried out from an
optional last-emitted value: the first element always passes, later elements
pass only when different from the last passed one. -/
def dedupFrom (last : Option Bool) : List Bool → List Bool
  | [] => []
  | b :: bs => if last = some b then dedupFrom last bs else b :: dedupFrom (some b) bs

/-- The rxjs distinctUntilChanged operator applied to a fresh stream. -/
def distinctUntilChanged (l : List Bool) : List Bool :=
  dedupFrom none l

/-- Emissions of serverVersionChanged: the per-tick comparison results are
deduplicated, then each surviving true triggers one updateServiceWorker call
emitting that call's result, and each surviving false emits false (the
switchMap over needsUpdate). updResult is the value the update attempt
resolves to. -/
def serverVersionEmissions (cmps : List Bool) (updResult : Bool) : List Bool :=
  (distinctUntilChanged cmps).map (fun needsUpdate => if needsUpdate then updResult else false)

/-- Number of updateServiceWorker calls made by the serverVersionChanged
pipeline for a given sequence of per-tick comparison results: one call per
true value surviving distinctUntilChanged. -/
def updateAttemptCount (cmps : List Bool) : Nat :=
  ((distinctUntilChanged cmps).filter (fun b => b)).length

/-- Number of transitions from false to true in a boolean sequence, the
previous value carried as the first argument (false before the first tick). -/
def risingEdges : Bool → List Bool → Nat
  | _, [] => 0
  | prev, b :: bs => (if b && !prev then 1 else 0) + risingEdges b bs

/-- A boolean emission sequence is a monotonic latch when no false follows a
true. -/
def latchList : List Bool → Bool
  | [] => true
  | false :: bs => latchList bs
  | true :: bs => bs.all (fun x => x)

/-- An input event to the dimNeedsUpdate aggregation: an emission of the
serverVersionChanged stream or of the serviceWorkerUpdated subject. -/
inductive AggEvent where
  | server (value : Bool)
  | worker (value : Bool)
deriving DecidableEq

/-- Model of rxjs combineLatest over the two inputs with the logical-or
projector of dimNeedsUpdate. The worker subject is a BehaviorSubject started
at false, so its latest value is always available; the combination emits on
every event once the server stream has emitted at least once. -/
def combineLatestOr : Option Bool → Bool → List AggEvent → List Bool
  | _, _, [] => []
  | _, wLast, AggEvent.server b :: es => (b || wLast) :: combineLatestOr (some b) wLast es
  | none, _, AggEvent.worker b :: es => combineLatestOr none b es
  | some s, _, AggEvent.worker b :: es => (s || b) :: combineLatestOr (some s) b es

/-- Emissions of dimNeedsUpdate for a sequence of input events: the
combineLatest projection followed by distinctUntilChanged (the tap that
mirrors the value into the dimNeedsUpdate flag sits before the dedup and
does not change the emissions). -/
def dimNeedsUpdateEmissions (events : List AggEvent) : List Bool :=
  distinctUntilChanged (combineLatestOr none false events)

/-- Values carried by the server-side input events, in order. -/
def serverVals (events : List AggEvent) : List Bool :=
  events.filterMap (fun e =>
    match e with
    | AggEvent.server b => some b
    | AggEvent.worker _ => none)

/-- Values carried by the worker-side input events, in order. -/
def workerVals (events : List AggEvent) : List Bool :=
  events.filterMap (fun e =>
    match e with
    | AggEvent.server _ => none
    | AggEvent.worker b => some b)

/-- Log and telemetry effects emitted by the embedded functions. -/
inductive SWLog where
  | info (message : String)
  | error (message : String)
  | warn (message : String)
  | reported (tag : String)
deriving DecidableEq

/-- The updateServiceWorker binding before registration completes: the
module-level initialiser resolving false and doing nothing. -/
def updateServiceWorkerInitial : Bool × List SWLog :=
  (false, [])

/-- The updateServiceWorker closure installed after successful registration.
It logs, runs registration.update() whose rejection is handled by a catch
returning false (logging and reporting only when the debugSW flag is set),
and then a then-callback that ignores the value the catch produced and
resolves true exactly when a worker is in the waiting state. updateRejects
says whether registration.update() rejected; waiting says whether
registration.waiting is set afterwards. -/
def updateServiceWorkerRegistered (debugSW updateRejects waiting : Bool) : Bool × List SWLog :=
  let checkLog := [SWLog.info "Checking for service worker update."]
  let catchLogs :=
    if updateRejects then
      if debugSW then
        [SWLog.error "Unable to update service worker.", SWLog.reported "service-worker"]
      else []
    else []
  if waiting then
    (true, checkLog ++ catchLogs ++ [SWLog.info "New content is available; please refresh. (from update)"])
  else
    (false, checkLog ++ catchLogs ++ [SWLog.info "Updated, but theres not a new worker waiting"])

/-- Effects the reloadDIM coordinator can perform. -/
inductive ReloadEffect where
  | errorLog (message : String)
  | infoLog (message : String)
  | postSkipWaiting
  | scheduleReload (delayMs : Nat)
  | armStateChangeHandler
  | reload
  | reported (tag : String)
deriving DecidableEq

/-- The observable fields of a service worker registration that reloadDIM
inspects: whether a waiting worker and an installing worker exist. -/
structure SWRegistration where
  waiting : Bool
  installing : Bool
deriving DecidableEq

/-- Embedding of reloadDIM. The argument models the awaited
navigator.serviceWorker.getRegistration() call: an exception, no
registration, or a registration snapshot. The try block handles each case as
in the source; the catch block logs the error and reloads. The function is
total, so no exception escapes to the caller. -/
def reloadDIM : Except Unit (Option SWRegistration) → List ReloadEffect
  | Except.error _ =>
    [ReloadEffect.errorLog "Error checking registration:", ReloadEffect.reload]
  | Except.ok none =>
    [ReloadEffect.errorLog "No registration!", ReloadEffect.reload]
  | Except.ok (some registration) =>
    if !registration.waiting then
      if registration.installing then
        [ReloadEffect.errorLog "registration.waiting is null!",
         ReloadEffect.infoLog "found an installing service worker",
         ReloadEffect.armStateChangeHandler]
      else
        [ReloadEffect.errorLog "registration.waiting is null!", ReloadEffect.reload]
    else
      [ReloadEffect.infoLog "posting skip waiting",
       ReloadEffect.postSkipWaiting,
       ReloadEffect.scheduleReload 2000]

/-- Deliver a number of controllerchange events to the listener armed for
one update cycle and count the reloads it fires. The listener returns early
when the preventDevToolsReloadLoop guard is set, otherwise it sets the guard
and reloads; the second argument is the current guard value (false when the
listener is armed). -/
def deliverControllerChanges : Nat → Bool → Nat
  | 0, _ => 0
  | n + 1, guard =>
    if guard then deliverControllerChanges n guard
    else 1 + deliverControllerChanges n true

/-- The JSON document served at /version.json, with its optional version
field; none models a missing or null field and the empty string is also
falsy in the source check. -/
structure VersionJson where
  version : Option String
deriving DecidableEq

/-- Outcome of the fetch a poll tick performs: the promise rejected, or a
response arrived with an ok flag and a parsed body. -/
inductive FetchOutcome where
  | networkFailure
  | response (ok : Bool) (body : VersionJson)
deriving DecidableEq

/-- The distinct failure modes of getServerVersion. -/
inductive PollError where
  | network
  | badStatus
  | missingVersion
deriving DecidableEq

/-- Embedding of getServerVersion: a rejected fetch propagates as an error;
a non-ok response is thrown; an ok response with a falsy version field
throws; otherwise the version string is returned after an info log. The
second component collects the logs the function emits. -/
def getServerVersion : FetchOutcome → Except PollError String × List SWLog
  | FetchOutcome.networkFailure => (Except.error PollError.network, [])
  | FetchOutcome.response ok body =>
    if ok then
      match body.version with
      | none => (Except.error PollError.missingVersion, [])
      | some v =>
        if v = "" then (Except.error PollError.missingVersion, [])
        else (Except.ok v, [SWLog.info "Got server version"])
    else (Except.error PollError.badStatus, [])

/-- Whether a poll tick fails: getServerVersion ends in an error, which the
catchError in the pipeline swallows by emitting nothing. -/
def isPollFailure (t : FetchOutcome) : Bool :=
  match (getServerVersion t).fst with
  | Except.error _ => true
  | Except.ok _ => false

/-- Per-tick comparison results produced by the front of the
serverVersionChanged pipeline for a list of tick outcomes: a failing tick is
swallowed by catchError into an empty inner stream and contributes nothing,
a successful tick contributes isNewVersion of the fetched version against
the build version. -/
def pollComparisons (currentVersion : String) (ticks : List FetchOutcome) : List Bool :=
  ticks.filterMap (fun t =>
    match (getServerVersion t).fst with
    | Except.ok v => some (isNewVersion v currentVersion)
    | Except.error _ => none)

/-- States a service worker instance moves through, as exposed by the state
property read in the onstatechange handlers. -/
inductive WorkerState where
  | installing
  | installed
  | activating
  | activated
  | redundant
deriving DecidableEq

/-- What one run of the installing-worker onstatechange handler did: whether
it pushed true into the serviceWorkerUpdated subject, whether it armed the
controllerchange listener, whether it reloaded the page, and the logs it
wrote. -/
structure StateChangeResult where
  workerUpdatedSet : Bool
  controllerChangeArmed : Bool
  reloaded : Bool
  logs : List SWLog
deriving DecidableEq

/-- Embedding of the installingWorker.onstatechange handler installed by
registerServiceWorker: on reaching the installed state with a controller
present it logs, latches the serviceWorkerUpdated subject and arms the
guarded controllerchange listener; with no controller it only logs (under
the debugSW flag) that content is cached; any other state only logs under
the debugSW flag. Arming the listener does not itself reload. -/
def onStateChange (state : WorkerState) (hasController : Bool) (debugSW : Bool) : StateChangeResult :=
  match state with
  | WorkerState.installed =>
    if hasController then
      { workerUpdatedSet := true
        controllerChangeArmed := true
        reloaded := false
        logs := [SWLog.info "New content is available; please refresh. (from onupdatefound)"] }
    else
      { workerUpdatedSet := false
        controllerChangeArmed := false
        reloaded := false
        logs := if debugSW then [SWLog.info "Content is cached for offline use."] else [] }
  | _ =>
    { workerUpdatedSet := false
      controllerChangeArmed := false
      reloaded := false
      logs := if debugSW then [SWLog.info "New Service Worker state: "] else [] }

/-- Whether a log entry is informational. -/
def isInfoLog : SWLog → Bool
  | SWLog.info _ => true
  | _ => false

theorem segGt_none_left (y : Option Int) : segGt none y = false := by
  cases y <;> rfl

theorem segGt_none_right (x : Option Int) : segGt x none = false := by
  cases x <;> rfl

theorem segLt_none_left (y : Option Int) : segLt none y = false := by
  cases y <;> rfl

theorem segLt_none_right (x : Option Int) : segLt x none = false := by
  cases x <;> rfl

theorem segGt_self (x : Option Int) : segGt x x = false := by
  cases x with
  | none => rfl
  | some v => simp [segGt]

theorem segLt_self (x : Option Int) : segLt x x = false := by
  cases x with
  | none => rfl
  | some v => simp [segLt]

theorem segGt_swap (x y : Option Int) : segGt x y = segLt y x := by
  cases x <;> cases y <;> rfl

theorem segGt_eq_true_iff (x y : Option Int) :
    segGt x y = true ↔ ∃ a b, x = some a ∧ y = some b ∧ b < a := by
  cases x <;> cases y <;> simp [segGt]

theorem scanSegments_self : ∀ l : List (List Char), scanSegments l l = VersionCmp.same := by
  intro l
  induction l with
  | nil => rfl
  | cons a as ih => simp [scanSegments, segGt_self, segLt_self, ih]

theorem scanSegments_swap :
    ∀ as bs : List (List Char), scanSegments as bs = VersionCmp.newer →
      scanSegments bs as = VersionCmp.older := by
  intro as
  induction as with
  | nil =>
    intro bs h
    cases bs <;> simp [scanSegments] at h
  | cons a as ih =>
    intro bs h
    cases bs with
    | nil => simp [scanSegments] at h
    | cons b bs =>
      by_cases hgt : segGt (jsParseInt a) (jsParseInt b) = true
      · rcases (segGt_eq_true_iff _ _).mp hgt with ⟨p, q, hx, hy, hlt⟩
        have h1 : segGt (jsParseInt b) (jsParseInt a) = false := by
          rw [hy, hx]
          simp [segGt]
          omega
        have h2 : segLt (jsParseInt b) (jsParseInt a) = true := by
          rw [hy, hx]
          simp [segLt]
          omega
        simp [scanSegments, h1, h2]
      · by_cases hlt : segLt (jsParseInt a) (jsParseInt b) = true
        · simp [scanSegments, hgt, hlt] at h
        · have h' : scanSegments as bs = VersionCmp.newer := by
            simpa [scanSegments, hgt, hlt] using h
          have hgt' : segGt (jsParseInt b) (jsParseInt a) = false := by
            rw [segGt_swap]
            exact Bool.not_eq_true _ |>.mp hlt
          have hlt' : segLt (jsParseInt b) (jsParseInt a) = false := by
            rw [← segGt_swap]
            exact Bool.not_eq_true _ |>.mp hgt
          simp [scanSegments, hgt', hlt', ih bs h']

/-- C8: in isNewVersion, a segment position at which either side parses as
NaN compares as neither greater nor lesser, so the comparison loop skips it
and that position never decides the result; and the function is total on
all string inputs, returning a boolean without raising an error. -/
theorem claim_C8 :
    (∀ (a b : List Char) (as bs : List (List Char)),
        jsParseInt a = none ∨ jsParseInt b = none →
        scanSegments (a :: as) (b :: bs) = scanSegments as bs) ∧
    (∀ version currentVersion : String,
        isNewVersion version currentVersion = true ∨
        isNewVersion version currentVersion = false) := by
  constructor
  · intro a b as bs h
    rcases h with h | h <;>
      simp [scanSegments, h, segGt_none_left, segGt_none_right,
        segLt_none_left, segLt_none_right]
  · intro v c
    cases h : isNewVersion v c
    · right
      rfl
    · left
      rfl

/-- Witness for C8 at a concrete non-numeric segment. -/
theorem claim_C8_witness :
    scanSegments [['x'], ['3']] [['2'], ['1']] = scanSegments [['3']] [['1']] ∧
    jsParseInt ['x'] = none :=
  ⟨claim_C8.1 ['x'] ['2'] [['3']] [['1']] (Or.inl (by decide)), by decide⟩

/-- C10: isNewVersion is irreflexive and asymmetric on all version strings,
numeric or not. -/
theorem claim_C10 (V A B : String) :
    isNewVersion V V = false ∧ (isNewVersion A B && isNewVersion B A) = false := by
  constructor
  · simp [isNewVersion, scanSegments_self]
  · cases h : isNewVersion A B with
    | false => simp
    | true =>
      have hn : scanSegments (splitSegs A.data) (splitSegs B.data) = VersionCmp.newer := by
        simpa [isNewVersion] using h
      have ho := scanSegments_swap _ _ hn
      simp [isNewVersion, ho]

theorem leadingDigits_all (s : List Char) (h : s.all Char.isDigit = true) :
    leadingDigits s = s := by
  induction s with
  | nil => rfl
  | cons c cs ih =>
    simp only [List.all_cons, Bool.and_eq_true] at h
    simp [leadingDigits, h.1, ih h.2]

theorem isWsChar_of_digit (c : Char) (h : c.isDigit = true) : isWsChar c = false := by
  cases hw : isWsChar c
  · rfl
  · exfalso
    have hd : ((c = ' ' ∨ c = '\t') ∨ c = '\n') ∨ c = '\r' := by
      simpa [isWsChar] using hw
    rcases hd with ((h1 | h1) | h1) | h1 <;> rw [h1] at h <;> exact absurd h (by decide)

theorem jsParseInt_numeric (s : List Char) (h : numericSeg s = true) :
    jsParseInt s = some ((digitsToNat s : Int)) := by
  cases s with
  | nil => simp [numericSeg] at h
  | cons c cs =>
    have hall : Char.isDigit c = true ∧ cs.all Char.isDigit = true := by
      simpa [numericSeg, List.all_cons] using h
    have hws := isWsChar_of_digit c hall.1
    have hld : leadingDigits (c :: cs) = c :: cs :=
      leadingDigits_all _ (by simp [List.all_cons, hall.1, hall.2])
    have hm : ¬(c = '-') := by
      intro he
      rw [he] at hall
      exact absurd hall.1 (by decide)
    have hp : ¬(c = '+') := by
      intro he
      rw [he] at hall
      exact absurd hall.1 (by decide)
    simp [jsParseInt, skipWs, hws, hm, hp, digitsVal, hld]

theorem segGt_cast (m n : Nat) :
    segGt (some ((m : Int))) (some ((n : Int))) = decide (n < m) := by
  simp [segGt]

theorem segLt_cast (m n : Nat) :
    segLt (some ((m : Int))) (some ((n : Int))) = decide (m < n) := by
  simp [segLt]

theorem scanSegments_eq_scanNat :
    ∀ as bs : List (List Char), as.all numericSeg = true → bs.all numericSeg = true →
      scanSegments as bs = scanNat (as.map digitsToNat) (bs.map digitsToNat) := by
  intro as
  induction as with
  | nil =>
    intro bs _ _
    cases bs <;> rfl
  | cons a as ih =>
    intro bs ha hb
    cases bs with
    | nil => rfl
    | cons b bs =>
      simp only [List.all_cons, Bool.and_eq_true] at ha hb
      rw [List.map_cons, List.map_cons]
      show (if segGt (jsParseInt a) (jsParseInt b) then VersionCmp.newer
            else if segLt (jsParseInt a) (jsParseInt b) then VersionCmp.older
            else scanSegments as bs) = _
      rw [jsParseInt_numeric a ha.1, jsParseInt_numeric b hb.1, segGt_cast, segLt_cast,
        ih bs ha.2 hb.2]
      show _ = (if digitsToNat b < digitsToNat a then VersionCmp.newer
            else if digitsToNat a < digitsToNat b then VersionCmp.older
            else scanNat (as.map digitsToNat) (bs.map digitsToNat))
      by_cases h1 : digitsToNat b < digitsToNat a
      · simp [h1]
      · by_cases h2 : digitsToNat a < digitsToNat b <;> simp [h1, h2]

theorem scanNat_newer_iff :
    ∀ va vb : List Nat,
      scanNat va vb = VersionCmp.newer ↔
        ∃ i, i < min va.length vb.length ∧
          (∀ j, j < i → va.getD j 0 = vb.getD j 0) ∧
          vb.getD i 0 < va.getD i 0 := by
  intro va
  induction va with
  | nil =>
    intro vb
    constructor
    · intro h
      cases vb <;> simp [scanNat] at h
    · rintro ⟨i, hi, -, -⟩
      simp at hi
  | cons a as ih =>
    intro vb
    cases vb with
    | nil =>
      constructor
      · intro h
        simp [scanNat] at h
      · rintro ⟨i, hi, -, -⟩
        simp at hi
    | cons b bs =>
      by_cases hba : b < a
      · constructor
        · intro _
          refine ⟨0, ?_, ?_, ?_⟩
          · simp
          · intro j hj
            omega
          · simpa using hba
        · intro _
          simp [scanNat, hba]
      · by_cases hab : a < b
        · have hne : scanNat (a :: as) (b :: bs) = VersionCmp.older := by
            simp [scanNat, hba, hab]
          rw [hne]
          constructor
          · intro h
            exact absurd h (by simp)
          · rintro ⟨i, hi, hj, hlt⟩
            exfalso
            cases i with
            | zero =>
              simp [List.getD_cons_zero] at hlt
              omega
            | succ k =>
              have h0 := hj 0 (Nat.succ_pos k)
              simp [List.getD_cons_zero] at h0
              omega
        · have heq : a = b := by omega
          have hstep : scanNat (a :: as) (b :: bs) = scanNat as bs := by
            simp [scanNat, hba, hab]
          rw [hstep, ih bs]
          constructor
          · rintro ⟨i, hi, hj, hlt⟩
            refine ⟨i + 1, ?_, ?_, ?_⟩
            · simp only [List.length_cons]
              omega
            · intro j hjlt
              cases j with
              | zero => simpa [List.getD_cons_zero] using heq
              | succ k => simpa [List.getD_cons_succ] using hj k (by omega)
            · simpa [List.getD_cons_succ] using hlt
          · rintro ⟨i, hi, hj, hlt⟩
            cases i with
            | zero =>
              exfalso
              simp [List.getD_cons_zero] at hlt
              omega
            | succ k =>
              refine ⟨k, ?_, ?_, ?_⟩
              · simp only [List.length_cons] at hi
                omega
              · intro j hjlt
                have hk := hj (j + 1) (by omega)
                simpa [List.getD_cons_succ] using hk
              · simpa [List.getD_cons_succ] using hlt

theorem jsLt_cast (m n : Nat) :
    jsLt (JsNumber.finite ((m : Int))) (JsNumber.finite ((n : Int))) = decide (m < n) := by
  simp [jsLt]

theorem jsParseIntDouble_numeric (s : List Char) (h : numericSeg s = true)
    (hsafe : digitsToNat s < 2 ^ 53) :
    jsParseIntDouble s = JsNumber.finite ((digitsToNat s : Int)) := by
  cases s with
  | nil => simp [numericSeg] at h
  | cons c cs =>
    have hall : Char.isDigit c = true ∧ cs.all Char.isDigit = true := by
      simpa [numericSeg, List.all_cons] using h
    have hws := isWsChar_of_digit c hall.1
    have hld : leadingDigits (c :: cs) = c :: cs :=
      leadingDigits_all _ (by simp [List.all_cons, hall.1, hall.2])
    have hm : ¬(c = '-') := by
      intro he
      rw [he] at hall
      exact absurd hall.1 (by decide)
    have hp : ¬(c = '+') := by
      intro he
      rw [he] at hall
      exact absurd hall.1 (by decide)
    have hbig : (2 : Nat) ^ 53 ≤ 2 ^ 1024 - 2 ^ 970 := by
      have h1 : (2 : Nat) ^ 970 ≤ 2 ^ 1023 := Nat.pow_le_pow_right (by norm_num) (by norm_num)
      have h2 : (2 : Nat) ^ 53 ≤ 2 ^ 1023 := Nat.pow_le_pow_right (by norm_num) (by norm_num)
      have h3 : (2 : Nat) ^ 1023 + 2 ^ 1023 = 2 ^ 1024 := by
        rw [← two_mul, ← pow_succ']
      omega
    have hoverflow : ¬(2 ^ 1024 - 2 ^ 970 ≤ digitsToNat (c :: cs)) :=
      Nat.not_le.mpr (Nat.lt_of_lt_of_le hsafe hbig)
    have hround : roundMantissa (digitsToNat (c :: cs)) = digitsToNat (c :: cs) := by
      unfold roundMantissa
      rw [if_pos hsafe]
    simp [jsParseIntDouble, skipWs, hws, hm, hp, digitsVal, hld, natToDouble,
      hoverflow, hround]

theorem scanSegmentsDouble_eq_scanNat :
    ∀ as bs : List (List Char),
      as.all numericSeg = true → bs.all numericSeg = true →
      as.all (fun seg => digitsToNat seg < 2 ^ 53) = true →
      bs.all (fun seg => digitsToNat seg < 2 ^ 53) = true →
      scanSegmentsDouble as bs = scanNat (as.map digitsToNat) (bs.map digitsToNat) := by
  intro as
  induction as with
  | nil =>
    intro bs _ _ _ _
    cases bs <;> rfl
  | cons a as ih =>
    intro bs ha hb ha53 hb53
    cases bs with
    | nil => rfl
    | cons b bs =>
      simp only [List.all_cons, Bool.and_eq_true] at ha hb
      simp only [List.all_cons, Bool.and_eq_true, decide_eq_true_eq] at ha53 hb53
      rw [List.map_cons, List.map_cons]
      show (if jsLt (jsParseIntDouble b) (jsParseIntDouble a) then VersionCmp.newer
            else if jsLt (jsParseIntDouble a) (jsParseIntDouble b) then VersionCmp.older
            else scanSegmentsDouble as bs) = _
      rw [jsParseIntDouble_numeric a ha.1 ha53.1, jsParseIntDouble_numeric b hb.1 hb53.1,
        jsLt_cast, jsLt_cast, ih bs ha.2 hb.2 ha53.2 hb53.2]
      show _ = (if digitsToNat b < digitsToNat a then VersionCmp.newer
            else if digitsToNat a < digitsToNat b then VersionCmp.older
            else scanNat (as.map digitsToNat) (bs.map digitsToNat))
      by_cases h1 : digitsToNat b < digitsToNat a
      · simp [h1]
      · by_cases h2 : digitsToNat a < digitsToNat b <;> simp [h1, h2]

set_option maxRecDepth 16000 in
/-- C4 counterexample: the dotted-numeric strings 9007199254740993 and
9007199254740992 parse to the same IEEE-754 double (2 to the 53rd), so the
comparison loop finds no differing segment and the code returns false, even
though the first (and only) segment of the candidate is numerically greater
— the condition under which the claim demands a true result. -/
theorem claim_C4_counterexample :
    isNewVersionDouble "9007199254740993" "9007199254740992" = false ∧
    dottedNumeric "9007199254740993" = true ∧
    dottedNumeric "9007199254740992" = true ∧
    0 < min (segVals "9007199254740993").length (segVals "9007199254740992").length ∧
    (segVals "9007199254740992").getD 0 0 < (segVals "9007199254740993").getD 0 0 ∧
    jsParseIntDouble "9007199254740993".data = jsParseIntDouble "9007199254740992".data :=
  ⟨by decide, by decide, by decide, by decide, by decide, by decide⟩

set_option maxRecDepth 16000 in
/-- C4 amended: on dotted-numeric version strings whose segment values all
lie below 2 to the 53rd (so every segment parses to an exact double),
isNewVersion returns true exactly when, scanning segments left to right up
to the length of the shorter segment list, there is a first index where the
segments differ and the candidate segment is numerically greater there;
equal up to the shorter length (including different segment counts) yields
false; and the four concrete examples from the specification evaluate as
stated. For larger segments parseInt rounds to the nearest double, so
distinct segments can compare equal. -/
theorem claim_C4_amended :
    (∀ A B : String, dottedNumeric A = true → dottedNumeric B = true →
      safeSegs A = true → safeSegs B = true →
      (isNewVersionDouble A B = true ↔
        ∃ i, i < min (segVals A).length (segVals B).length ∧
          (∀ j, j < i → (segVals A).getD j 0 = (segVals B).getD j 0) ∧
          (segVals B).getD i 0 < (segVals A).getD i 0)) ∧
    isNewVersionDouble "1.2.0" "1.2" = false ∧
    isNewVersionDouble "1.3" "1.2.9" = true ∧
    isNewVersionDouble "1.2" "1.3" = false ∧
    isNewVersionDouble "2.0.0" "1.9.9" = true := by
  refine ⟨?_, by decide, by decide, by decide, by decide⟩
  intro A B hA hB hsA hsB
  have hA' : (splitSegs A.data).all numericSeg = true := hA
  have hB' : (splitSegs B.data).all numericSeg = true := hB
  have hsA' : (splitSegs A.data).all (fun seg => digitsToNat seg < 2 ^ 53) = true := hsA
  have hsB' : (splitSegs B.data).all (fun seg => digitsToNat seg < 2 ^ 53) = true := hsB
  rw [show isNewVersionDouble A B =
      decide (scanSegmentsDouble (splitSegs A.data) (splitSegs B.data) = VersionCmp.newer)
      from rfl]
  rw [decide_eq_true_eq, scanSegmentsDouble_eq_scanNat _ _ hA' hB' hsA' hsB']
  exact scanNat_newer_iff _ _

set_option maxRecDepth 16000 in
/-- Witness for the amended C4: the characterization applied to the concrete
pair of dotted-numeric strings from the specification examples. -/
theorem claim_C4_witness :
    ∃ i, i < min (segVals "1.3").length (segVals "1.2.9").length ∧
      (∀ j, j < i → (segVals "1.3").getD j 0 = (segVals "1.2.9").getD j 0) ∧
      (segVals "1.2.9").getD i 0 < (segVals "1.3").getD i 0 :=
  (claim_C4_amended.1 "1.3" "1.2.9" (by decide) (by decide) (by decide) (by decide)).mp
    (by decide)

theorem count_dedupFrom_some :
    ∀ (l : List Bool) (prev : Bool),
      ((dedupFrom (some prev) l).filter (fun b => b)).length = risingEdges prev l := by
  intro l
  induction l with
  | nil => intro prev; rfl
  | cons b bs ih =>
    intro prev
    cases prev <;> cases b <;>
      simp [dedupFrom, risingEdges, List.filter_cons, ih] <;> omega

theorem updateAttemptCount_eq_risingEdges (cmps : List Bool) :
    updateAttemptCount cmps = risingEdges false cmps := by
  cases cmps with
  | nil => rfl
  | cons b bs =>
    cases b <;>
      simp [updateAttemptCount, distinctUntilChanged, dedupFrom, risingEdges,
        List.filter_cons, count_dedupFrom_some] <;> omega

theorem risingEdges_true_of_all (bs : List Bool) (h : bs.all (fun x => x) = true) :
    risingEdges true bs = 0 := by
  induction bs with
  | nil => rfl
  | cons b bs ih =>
    simp only [List.all_cons, Bool.and_eq_true] at h
    rcases h with ⟨hb, hbs⟩
    have hb' : b = true := by simpa using hb
    subst hb'
    simp [risingEdges, ih hbs]

theorem risingEdges_le_one_of_latch :
    ∀ cmps : List Bool, latchList cmps = true → risingEdges false cmps ≤ 1 := by
  intro cmps
  induction cmps with
  | nil => intro _; simp [risingEdges]
  | cons b bs ih =>
    intro h
    cases b
    · have hrec := ih (by simpa [latchList] using h)
      simpa [risingEdges] using hrec
    · have hall : bs.all (fun x => x) = true := by simpa [latchList] using h
      simp [risingEdges, risingEdges_true_of_all bs hall]

/-- C1 counterexample: for the comparison sequence from the specification,
the serverVersionChanged pipeline triggers the updateServiceWorker side
effect twice, not once, and its emissions flip to true twice. -/
theorem claim_C1_counterexample :
    updateAttemptCount [false, true, true, false, true] = 2 ∧
    ¬updateAttemptCount [false, true, true, false, true] = 1 ∧
    serverVersionEmissions [false, true, true, false, true] true = [false, true, false, true] :=
  ⟨by decide, by decide, by decide⟩

/-- C1 amended: the updateServiceWorker side effect fires exactly once per
transition of the per-tick comparison result from false to true — the call
count equals the number of rising edges of the comparison sequence — and in
particular it fires at most once whenever the comparison sequence is a
monotonic latch (once true it stays true). -/
theorem claim_C1_amended (cmps : List Bool) :
    updateAttemptCount cmps = risingEdges false cmps ∧
    (latchList cmps = true → updateAttemptCount cmps ≤ 1) := by
  refine ⟨updateAttemptCount_eq_risingEdges cmps, ?_⟩
  intro h
  rw [updateAttemptCount_eq_risingEdges]
  exact risingEdges_le_one_of_latch cmps h

/-- Witness for the amended C1 at a monotone comparison sequence. -/
theorem claim_C1_witness :
    latchList [false, true, true] = true ∧ updateAttemptCount [false, true, true] ≤ 1 :=
  ⟨by decide, (claim_C1_amended [false, true, true]).2 (by decide)⟩

theorem deliverControllerChanges_true (n : Nat) : deliverControllerChanges n true = 0 := by
  induction n with
  | zero => rfl
  | succ n ih => simp [deliverControllerChanges, ih]

/-- C6: within one update cycle, delivering any positive number of
controllerchange events to the armed listener reloads the page exactly
once; the re-entrancy guard suppresses every later delivery. -/
theorem claim_C6 (n : Nat) (h : 1 ≤ n) : deliverControllerChanges n false = 1 := by
  cases n with
  | zero => omega
  | succ m => simp [deliverControllerChanges, deliverControllerChanges_true]

/-- Witness for C6 with five deliveries. -/
theorem claim_C6_witness : 1 ≤ 5 ∧ deliverControllerChanges 5 false = 1 :=
  ⟨by decide, claim_C6 5 (by decide)⟩

theorem latchList_of_all (l : List Bool) (h : l.all (fun x => x) = true) :
    latchList l = true := by
  cases l with
  | nil => rfl
  | cons b bs =>
    simp only [List.all_cons, Bool.and_eq_true] at h
    rcases h with ⟨hb, hbs⟩
    have hb' : b = true := by simpa using hb
    subst hb'
    simpa [latchList] using hbs

theorem combineLatestOr_all_true :
    ∀ (events : List AggEvent) (sLast : Option Bool) (wLast : Bool),
      (workerVals events).all (fun x => x) = true →
      (wLast = true ∨ (sLast = some true ∧ (serverVals events).all (fun x => x) = true)) →
      (combineLatestOr sLast wLast events).all (fun x => x) = true := by
  intro events
  induction events with
  | nil =>
    intro sLast wLast _ _
    cases sLast <;> rfl
  | cons e es ih =>
    intro sLast wLast hw hd
    cases e with
    | server b =>
      have hw' : (workerVals es).all (fun x => x) = true := by
        simpa [workerVals, List.filterMap_cons] using hw
      rcases hd with hwl | hsd
      · subst hwl
        have hrec := ih (some b) true hw' (Or.inl rfl)
        simp [combineLatestOr, List.all_cons, hrec]
      · have hsv : b = true ∧ (serverVals es).all (fun x => x) = true := by
          simpa [serverVals, List.filterMap_cons] using hsd.2
        rcases hsv with ⟨hb, hrest⟩
        subst hb
        have hrec := ih (some true) wLast hw' (Or.inr ⟨rfl, hrest⟩)
        simp [combineLatestOr, List.all_cons, hrec]
    | worker b =>
      have hwv : b = true ∧ (workerVals es).all (fun x => x) = true := by
        simpa [workerVals, List.filterMap_cons] using hw
      rcases hwv with ⟨hb, hw'⟩
      subst hb
      cases sLast with
      | none =>
        have hrec := ih none true hw' (Or.inl rfl)
        simpa [combineLatestOr] using hrec
      | some s =>
        have hrec := ih (some s) true hw' (Or.inl rfl)
        simp [combineLatestOr, List.all_cons, hrec]

theorem combineLatestOr_latch :
    ∀ (events : List AggEvent) (sLast : Option Bool),
      (workerVals events).all (fun x => x) = true →
      latchList (sLast.getD false :: serverVals events) = true →
      latchList (combineLatestOr sLast false events) = true := by
  intro events
  induction events with
  | nil =>
    intro sLast _ _
    cases sLast <;> rfl
  | cons e es ih =>
    intro sLast hw hl
    cases e with
    | server b =>
      have hw' : (workerVals es).all (fun x => x) = true := by
        simpa [workerVals, List.filterMap_cons] using hw
      have hsv : serverVals (AggEvent.server b :: es) = b :: serverVals es := by
        simp [serverVals, List.filterMap_cons]
      rw [hsv] at hl
      cases b with
      | true =>
        have hall : (serverVals es).all (fun x => x) = true := by
          cases hgd : sLast.getD false with
          | false =>
            rw [hgd] at hl
            simpa [latchList] using hl
          | true =>
            rw [hgd] at hl
            have hl' : (true :: serverVals es).all (fun x => x) = true := by
              simpa [latchList] using hl
            simpa [List.all_cons] using hl'
        have hx := combineLatestOr_all_true es (some true) false hw' (Or.inr ⟨rfl, hall⟩)
        simpa [combineLatestOr, latchList] using hx
      | false =>
        have hl' : latchList (false :: serverVals es) = true := by
          cases hgd : sLast.getD false with
          | false =>
            rw [hgd] at hl
            simpa [latchList] using hl
          | true =>
            rw [hgd] at hl
            exfalso
            simp [latchList, List.all_cons] at hl
        have hrec := ih (some false) hw' (by simpa [latchList] using hl')
        simpa [combineLatestOr, latchList] using hrec
    | worker b =>
      have hwv : b = true ∧ (workerVals es).all (fun x => x) = true := by
        simpa [workerVals, List.filterMap_cons] using hw
      rcases hwv with ⟨hb, hw'⟩
      subst hb
      have hsv : serverVals (AggEvent.worker true :: es) = serverVals es := by
        simp [serverVals, List.filterMap_cons]
      rw [hsv] at hl
      cases sLast with
      | none =>
        have hx := combineLatestOr_all_true es none true hw' (Or.inl rfl)
        have hlatch := latchList_of_all _ hx
        simpa [combineLatestOr] using hlatch
      | some s =>
        have hx := combineLatestOr_all_true es (some s) true hw' (Or.inl rfl)
        simpa [combineLatestOr, latchList] using hx

theorem dedupFrom_some_true_of_all (l : List Bool) (h : l.all (fun x => x) = true) :
    dedupFrom (some true) l = [] := by
  induction l with
  | nil => rfl
  | cons b bs ih =>
    simp only [List.all_cons, Bool.and_eq_true] at h
    rcases h with ⟨hb, hbs⟩
    have hb' : b = true := by simpa using hb
    subst hb'
    simp [dedupFrom, ih hbs]

theorem latchList_dedupFrom :
    ∀ (l : List Bool) (last : Option Bool),
      latchList l = true → latchList (dedupFrom last l) = true := by
  intro l
  induction l with
  | nil =>
    intro last _
    rfl
  | cons b bs ih =>
    intro last h
    cases b with
    | false =>
      have h' : latchList bs = true := by simpa [latchList] using h
      by_cases hc : last = some false
      · subst hc
        simpa [dedupFrom] using ih (some false) h'
      · have hrec := ih (some false) h'
        simpa [dedupFrom, hc, latchList] using hrec
    | true =>
      have hall : bs.all (fun x => x) = true := by simpa [latchList] using h
      by_cases hc : last = some true
      · subst hc
        simp [dedupFrom, dedupFrom_some_true_of_all bs hall, latchList]
      · simp [dedupFrom, hc, dedupFrom_some_true_of_all bs hall, latchList]

/-- C2 counterexample: when the server stream emits true and then false,
which the serverVersionChanged pipeline produces for the per-tick comparison
sequence [true, false] with a successful update attempt, the dimNeedsUpdate
stream emits true and then emits false again, so it is not a monotonic
latch. -/
theorem claim_C2_counterexample :
    dimNeedsUpdateEmissions
        ((serverVersionEmissions [true, false] true).map AggEvent.server) = [true, false] ∧
    latchList
        (dimNeedsUpdateEmissions
          ((serverVersionEmissions [true, false] true).map AggEvent.server)) = false :=
  ⟨by decide, by decide⟩

/-- C2 amended: provided both inputs are one-shot latches — the server-poll
signal never emits false after true, and the serviceWorkerUpdated subject
only ever receives true — the aggregated dimNeedsUpdate stream is a
monotonic latch: once it has emitted true it never emits false again. -/
theorem claim_C2_amended (events : List AggEvent)
    (hs : latchList (serverVals events) = true)
    (hw : (workerVals events).all (fun x => x) = true) :
    latchList (dimNeedsUpdateEmissions events) = true := by
  have hmain := combineLatestOr_latch events none hw (by simpa [latchList] using hs)
  simpa [dimNeedsUpdateEmissions, distinctUntilChanged] using
    latchList_dedupFrom _ none hmain

/-- Witness for the amended C2 at a concrete latched event interleaving. -/
theorem claim_C2_witness :
    latchList (serverVals [AggEvent.server false, AggEvent.worker true, AggEvent.server true]) = true ∧
    (workerVals [AggEvent.server false, AggEvent.worker true, AggEvent.server true]).all
      (fun x => x) = true ∧
    latchList (dimNeedsUpdateEmissions
      [AggEvent.server false, AggEvent.worker true, AggEvent.server true]) = true :=
  ⟨by decide, by decide, claim_C2_amended _ (by decide) (by decide)⟩

/-- C3 counterexample: with the debug flag off, a rejected update check with
a worker waiting resolves true, not false, and nothing is logged as an error
or forwarded to the exception sink — the catch swallows the rejection and
the following then-callback ignores the value the catch produced. -/
theorem claim_C3_counterexample :
    (updateServiceWorkerRegistered false true true).fst = true ∧
    (updateServiceWorkerRegistered false true true).snd.all
      (fun l =>
        match l with
        | SWLog.error _ => false
        | SWLog.reported _ => false
        | _ => true) = true :=
  ⟨by decide, by decide⟩

/-- C3 amended: before registration completes the function resolves false
without doing anything; after registration it resolves true exactly when a
worker is then in the waiting state, whether or not the update-check
primitive rejected; a rejection is logged and reported only when the debug
flag is set. -/
theorem claim_C3_amended (debugSW updateRejects waiting : Bool) :
    (updateServiceWorkerRegistered debugSW updateRejects waiting).fst = waiting ∧
    updateServiceWorkerInitial.fst = false ∧
    (updateRejects = true → debugSW = true →
      SWLog.reported "service-worker" ∈ (updateServiceWorkerRegistered debugSW updateRejects waiting).snd ∧
      SWLog.error "Unable to update service worker." ∈
        (updateServiceWorkerRegistered debugSW updateRejects waiting).snd) := by
  refine ⟨?_, rfl, ?_⟩
  · cases waiting <;> rfl
  · intro hr hd
    subst hr
    subst hd
    cases waiting <;> decide

/-- Witness for the amended C3: debug on, update rejected, no worker
waiting. -/
theorem claim_C3_witness :
    (updateServiceWorkerRegistered true true false).fst = false ∧
    SWLog.reported "service-worker" ∈ (updateServiceWorkerRegistered true true false).snd :=
  ⟨(claim_C3_amended true true false).1, ((claim_C3_amended true true false).2.2 rfl rfl).1⟩

/-- C5 counterexample: when getRegistration throws, reloadDIM logs the error
and reloads but does not forward anything to the exception sink, so the
exception path is not reported as the claim states. -/
theorem claim_C5_counterexample :
    reloadDIM (Except.error ()) =
      [ReloadEffect.errorLog "Error checking registration:", ReloadEffect.reload] ∧
    (reloadDIM (Except.error ())).all
      (fun e =>
        match e with
        | ReloadEffect.reported _ => false
        | _ => true) = true :=
  ⟨by decide, by decide⟩

/-- C5 amended: reloadDIM never throws to its caller (the model is a total
function of the getRegistration outcome), and every failure path ends in an
unconditional reload: no registration reloads immediately, a registration
with neither a waiting nor an installing worker reloads immediately, and an
exception during the sequence is caught and logged and followed by an
unconditional reload, without being forwarded to the exception sink. -/
theorem claim_C5_amended (registration : SWRegistration) :
    (reloadDIM (Except.ok none)).getLast? = some ReloadEffect.reload ∧
    (registration.waiting = false → registration.installing = false →
      (reloadDIM (Except.ok (some registration))).getLast? = some ReloadEffect.reload) ∧
    (reloadDIM (Except.error ())).getLast? = some ReloadEffect.reload ∧
    ReloadEffect.errorLog "Error checking registration:" ∈ reloadDIM (Except.error ()) := by
  refine ⟨by decide, ?_, by decide, by decide⟩
  intro hw hi
  rcases registration with ⟨w, i⟩
  simp only at hw hi
  subst hw
  subst hi
  decide

/-- Witness for the amended C5 at a registration with no waiting and no
installing worker. -/
theorem claim_C5_witness :
    (SWRegistration.mk false false).waiting = false ∧
    (reloadDIM (Except.ok (some (SWRegistration.mk false false)))).getLast? =
      some ReloadEffect.reload :=
  ⟨rfl, (claim_C5_amended (SWRegistration.mk false false)).2.1 rfl rfl⟩

/-- C7 counterexample: a failing poll tick emits no log at all — the
catchError in the pipeline swallows the error silently and getServerVersion
itself logs only on success — so the failure is not logged as the claim
states. -/
theorem claim_C7_counterexample :
    (getServerVersion FetchOutcome.networkFailure).snd = [] ∧
    (getServerVersion (FetchOutcome.response false (VersionJson.mk (some "1.0")))).snd = [] ∧
    (getServerVersion (FetchOutcome.response true (VersionJson.mk none))).snd = [] ∧
    isPollFailure FetchOutcome.networkFailure = true ∧
    isPollFailure (FetchOutcome.response false (VersionJson.mk (some "1.0"))) = true ∧
    isPollFailure (FetchOutcome.response true (VersionJson.mk none)) = true := by
  decide

/-- C7 amended: on every poll tick, a network failure, a non-OK response, or
a response missing the version field is swallowed silently (no log is
emitted and no error reaches the observers), contributes no update signal
for that tick, and never tears down the polling schedule — the comparisons
produced for the remaining ticks are exactly those with the failing tick
removed. -/
theorem claim_C7_amended (currentVersion : String) (pre post : List FetchOutcome)
    (bad : FetchOutcome) (h : isPollFailure bad = true) :
    pollComparisons currentVersion (pre ++ bad :: post) =
      pollComparisons currentVersion (pre ++ post) ∧
    (getServerVersion bad).snd = [] := by
  have he : ∃ e, (getServerVersion bad).fst = Except.error e := by
    revert h
    cases hfst : (getServerVersion bad).fst with
    | error e => intro _; exact ⟨e, rfl⟩
    | ok v => intro h; simp [isPollFailure, hfst] at h
  rcases he with ⟨e, he⟩
  constructor
  · simp [pollComparisons, List.filterMap_append, List.filterMap_cons, he]
  · cases bad with
    | networkFailure => rfl
    | response ok body =>
      cases ok with
      | false => rfl
      | true =>
        rcases body with ⟨v⟩
        cases v with
        | none => rfl
        | some s =>
          by_cases hs : s = ""
          · subst hs
            rfl
          · exfalso
            simp [getServerVersion, hs] at he

/-- Witness for the amended C7: a network failure between two successful
ticks contributes nothing and leaves the later tick processed. -/
theorem claim_C7_witness :
    isPollFailure FetchOutcome.networkFailure = true ∧
    pollComparisons "1.0"
        ([FetchOutcome.response true (VersionJson.mk (some "2.0"))] ++
          FetchOutcome.networkFailure ::
            [FetchOutcome.response true (VersionJson.mk (some "0.5"))]) =
      pollComparisons "1.0"
        ([FetchOutcome.response true (VersionJson.mk (some "2.0"))] ++
          [FetchOutcome.response true (VersionJson.mk (some "0.5"))]) :=
  ⟨by decide,
    (claim_C7_amended "1.0"
      [FetchOutcome.response true (VersionJson.mk (some "2.0"))]
      [FetchOutcome.response true (VersionJson.mk (some "0.5"))]
      FetchOutcome.networkFailure (by decide)).1⟩

/-- C9: in the first-install scenario — the installing worker reaches the
installed state while no controller exists — the handler triggers no reload,
leaves the serviceWorkerUpdated latch unset, arms no controllerchange
listener, and emits nothing but informational logging. -/
theorem claim_C9 (debugSW : Bool) :
    (onStateChange WorkerState.installed false debugSW).workerUpdatedSet = false ∧
    (onStateChange WorkerState.installed false debugSW).controllerChangeArmed = false ∧
    (onStateChange WorkerState.installed false debugSW).reloaded = false ∧
    (onStateChange WorkerState.installed false debugSW).logs.all isInfoLog = true := by
  cases debugSW <;> decide
